import Mathlib

/-!
# EV battery life-cycle tracker: coulomb counting and cycle counting

A shallow embedding of the estimator in `src/src/main.cpp` (the body of `loop`,
lines 95-177) together with proofs of its accounting properties.

Modelling decisions.

* The accounting is embedded twice.  In `coulombCounting`, `cycleCounting`,
  `loopBody` and `run` the C++ `float` arithmetic is taken as exact, over the
  rationals `ℚ`: the properties stated for exact arithmetic are proved there.
  In `coulombCountingF32`, `cycleCountingF32`, `loopBodyF32` and `runF32`
  every `float` operation is rounded to the nearest binary32 value (ties to
  even, subnormals included); values of magnitude `2 ^ 128` and above, where
  binary32 overflows, are outside this model.
* `battery_cycle_count` (a `long`) is an integer `ℤ`; the cast `(long)x` is
  truncation toward zero, taken without overflow (the quotient is assumed to
  fit a `long`).
* `abs` is the absolute value of a `float` (the Arduino macro
  `((x)>0?(x):-(x))`, or `std::abs` on newer cores).
* `millis()` and `previousMillis` are `unsigned long` (32 bit on the target):
  their difference is computed modulo `2 ^ 32`.
* The sensor read `mock_getCurrent_mA()` is an input of `loop`; display and
  serial output are not modelled.
* The part of `loop` that does the accounting (lines 109-133) reads two values
  that are constants in the sketch, `BATTERY_CAPACITY_MAH` and
  `deltaTime_hours`.  It is embedded as `loopBody`, with both as parameters, so
  that properties quantified over the capacity and over the sample interval
  can be stated; `loop` instantiates it at the constants of the sketch.
-/

namespace EVBattery

/-! ## Constants and state (main.cpp lines 29-39) -/

/-- Nominal capacity: `const float BATTERY_CAPACITY_MAH = 250.0;` (line 29). -/
def BATTERY_CAPACITY_MAH : ℚ := 250

/-- Sampling period: `const long SAMPLE_INTERVAL_MS = 1000;` (line 38). -/
def SAMPLE_INTERVAL_MS : ℤ := 1000

/-- The four file-scope accumulators of the sketch (lines 30-36). -/
structure Estimator where
  /-- Charge removed since the last full state: `accumulated_discharge_mAh`. -/
  accumulated_discharge_mAh : ℚ
  /-- Total charge discharged since start: `total_discharged_mAh`. -/
  total_discharged_mAh : ℚ
  /-- Total charge recharged since start: `total_recharged_mAh`. -/
  total_recharged_mAh : ℚ
  /-- Number of full cycles completed: `battery_cycle_count`. -/
  battery_cycle_count : ℤ
  deriving DecidableEq

/-- The initial values of the accumulators: all of them are zero (lines 30-36). -/
def Estimator.zero : Estimator :=
  { accumulated_discharge_mAh := 0
    total_discharged_mAh := 0
    total_recharged_mAh := 0
    battery_cycle_count := 0 }

/-- The C cast `(long)x` of a floating-point value: truncation toward zero. -/
def toLong (x : ℚ) : ℤ :=
  if 0 ≤ x then ⌊x⌋ else ⌈x⌉

/-- Section 2 of `loop`, "COULOMB COUNTING" (lines 109-125). -/
def coulombCounting (deltaTime_hours current_mA : ℚ) (s : Estimator) : Estimator :=
  let charge_transferred_mAh := current_mA * deltaTime_hours
  if current_mA < 0 then
    -- DISCHARGING
    let discharge_amount := |charge_transferred_mAh|
    { s with
      accumulated_discharge_mAh := s.accumulated_discharge_mAh + discharge_amount
      total_discharged_mAh := s.total_discharged_mAh + discharge_amount }
  else if current_mA > 0 then
    -- CHARGING
    let charge_amount := |charge_transferred_mAh|
    let accumulated := s.accumulated_discharge_mAh - charge_amount
    { s with
      accumulated_discharge_mAh := if accumulated < 0 then 0 else accumulated
      total_recharged_mAh := s.total_recharged_mAh + charge_amount }
  else
    s

/-- Section 3 of `loop`, "Equivalent Full Cycle Counting" (lines 128-133). -/
def cycleCounting (capacity : ℚ) (s : Estimator) : Estimator :=
  let expected_cycle_count := toLong (s.total_discharged_mAh / capacity)
  if expected_cycle_count > s.battery_cycle_count then
    { s with battery_cycle_count := expected_cycle_count }
  else
    s

/-- Lines 109-133 of `loop`: one sample is accounted for, then the cycle count is
re-evaluated. -/
def loopBody (capacity deltaTime_hours current_mA : ℚ) (s : Estimator) : Estimator :=
  cycleCounting capacity (coulombCounting deltaTime_hours current_mA s)

/-- The value computed for display at line 136: `percentage_remaining`. -/
def percentage_remaining (capacity : ℚ) (s : Estimator) : ℚ :=
  100 * (1 - s.accumulated_discharge_mAh / capacity)

/-- The unsigned 32-bit difference `currentMillis - previousMillis` of line 98. -/
def elapsedMillis (currentMillis previousMillis : ℕ) : ℤ :=
  ((currentMillis : ℤ) - (previousMillis : ℤ)) % 2 ^ 32

/-- The state after a sequence of samples, each a pair
`(current_mA, deltaTime_hours)`, processed in order from the state `s`. -/
def run (capacity : ℚ) (s : Estimator) : List (ℚ × ℚ) → Estimator
  | [] => s
  | t :: ticks => run capacity (loopBody capacity t.2 t.1 s) ticks

/-- The amount of charge moved by one sample: `abs(current_mA * deltaTime_hours)`. -/
def amount (t : ℚ × ℚ) : ℚ :=
  |t.1 * t.2|

/-- The sum of the amounts of the discharging samples (`current_mA < 0`) of a
sequence. -/
def dischargedSum (ticks : List (ℚ × ℚ)) : ℚ :=
  ((ticks.filter (fun t => decide (t.1 < 0))).map amount).sum

/-- Whether the clip at line 122 fires for a sample taken in state `s`: the
sample is a charging one and drives `accumulated_discharge_mAh` below zero. -/
def clips (t : ℚ × ℚ) (s : Estimator) : Prop :=
  t.1 > 0 ∧ s.accumulated_discharge_mAh - |t.1 * t.2| < 0

instance clips.decidable (t : ℚ × ℚ) (s : Estimator) : Decidable (clips t s) :=
  inferInstanceAs (Decidable (t.1 > 0 ∧ s.accumulated_discharge_mAh - |t.1 * t.2| < 0))

/-- The clip at line 122 fires for no sample of the sequence processed from `s`. -/
def neverClips (capacity : ℚ) (s : Estimator) : List (ℚ × ℚ) → Prop
  | [] => True
  | t :: ticks => ¬ clips t s ∧ neverClips capacity (loopBody capacity t.2 t.1 s) ticks

instance neverClips.decidable (capacity : ℚ) :
    ∀ (s : Estimator) (ticks : List (ℚ × ℚ)), Decidable (neverClips capacity s ticks)
  | _, [] => isTrue trivial
  | s, t :: ticks =>
    have := neverClips.decidable capacity (loopBody capacity t.2 t.1 s) ticks
    inferInstanceAs
      (Decidable (¬ clips t s ∧ neverClips capacity (loopBody capacity t.2 t.1 s) ticks))


/-! ## The same accounting in binary32 arithmetic -/

/-- The quotient `a / b` of two naturals rounded to the nearest natural, ties
going to the even one. -/
def roundHalfEven (a b : ℕ) : ℕ :=
  if 2 * (a % b) < b then a / b
  else if b < 2 * (a % b) then a / b + 1
  else if (a / b) % 2 = 0 then a / b else a / b + 1

/-- Binary search for the exponent of the leading bit: given `2 ^ k ≤ n` and
`n < 2 ^ (k + 2 ^ i)`, the result `r` has `2 ^ r ≤ n < 2 ^ (r + 1)`. -/
def log2Search : ℕ → ℕ → ℕ → ℕ
  | 0, k, _ => k
  | i + 1, k, n =>
    if 2 ^ (k + 2 ^ i) ≤ n then log2Search i (k + 2 ^ i) n else log2Search i k n

/-- The number of binary digits of `q`, for `q < 2 ^ 2048`. -/
def bitLength (q : ℕ) : ℕ :=
  if q = 0 then 0 else log2Search 11 0 q + 1

/-- Rounding to the nearest value of a binary floating-point format with `p`
significant bits whose least subnormal is `2 ^ (-u)`, ties to even.  The
magnitude of `x` is written in units of `2 ^ (-u)`; when it has more than `p`
binary digits the digits beyond the first `p` are rounded away. -/
def roundBinary (p u : ℕ) (x : ℚ) : ℚ :=
  let a := x.num.natAbs * 2 ^ u
  let b := x.den
  let s := bitLength (a / b) - p
  let m := roundHalfEven a (b * 2 ^ s) * 2 ^ s
  if x < 0 then -((m : ℚ) / ((2 ^ u : ℕ) : ℚ)) else (m : ℚ) / ((2 ^ u : ℕ) : ℚ)

/-- Rounding to `float` (binary32: 24 significant bits, least subnormal
`2 ^ (-149)`). -/
def fl32 (x : ℚ) : ℚ :=
  roundBinary 24 149 x

/-- Rounding to `double` (binary64: 53 significant bits, least subnormal
`2 ^ (-1074)`). -/
def fl64 (x : ℚ) : ℚ :=
  roundBinary 53 1074 x

/-- The constant of line 99,
`float deltaTime_hours = (float)SAMPLE_INTERVAL_MS / 3600000.0;`: the interval
is converted to `float`, divided in `double` by the `double` literal, and the
quotient is stored in a `float`. -/
def deltaTime_hoursF32 : ℚ :=
  fl32 (fl64 (fl32 (SAMPLE_INTERVAL_MS : ℚ) / 3600000))

/-- Section 2 of `loop`, "COULOMB COUNTING" (lines 109-125), every `float`
operation rounded to binary32. -/
def coulombCountingF32 (deltaTime_hours current_mA : ℚ) (s : Estimator) : Estimator :=
  let charge_transferred_mAh := fl32 (current_mA * deltaTime_hours)
  if current_mA < 0 then
    -- DISCHARGING
    let discharge_amount := |charge_transferred_mAh|
    { s with
      accumulated_discharge_mAh := fl32 (s.accumulated_discharge_mAh + discharge_amount)
      total_discharged_mAh := fl32 (s.total_discharged_mAh + discharge_amount) }
  else if current_mA > 0 then
    -- CHARGING
    let charge_amount := |charge_transferred_mAh|
    let accumulated := fl32 (s.accumulated_discharge_mAh - charge_amount)
    { s with
      accumulated_discharge_mAh := if accumulated < 0 then 0 else accumulated
      total_recharged_mAh := fl32 (s.total_recharged_mAh + charge_amount) }
  else
    s

/-- Section 3 of `loop`, "Equivalent Full Cycle Counting" (lines 128-133), the
division rounded to binary32. -/
def cycleCountingF32 (capacity : ℚ) (s : Estimator) : Estimator :=
  let expected_cycle_count := toLong (fl32 (s.total_discharged_mAh / capacity))
  if expected_cycle_count > s.battery_cycle_count then
    { s with battery_cycle_count := expected_cycle_count }
  else
    s

/-- Lines 109-133 of `loop` in binary32 arithmetic. -/
def loopBodyF32 (capacity deltaTime_hours current_mA : ℚ) (s : Estimator) : Estimator :=
  cycleCountingF32 capacity (coulombCountingF32 deltaTime_hours current_mA s)

/-- The state after a sequence of currents, each processed by `loopBodyF32`. -/
def runF32 (capacity deltaTime_hours : ℚ) (s : Estimator) : List ℚ → Estimator
  | [] => s
  | c :: cs => runF32 capacity deltaTime_hours (loopBodyF32 capacity deltaTime_hours c s) cs

/-- The accumulators of the sketch after it has processed, from start-up, the
samples whose currents are the given values of `map` in `mock_getCurrent_mA`
(each a `long`, converted to `float` at line 68 or 72), with the capacity and
the sample interval of the sketch. -/
def sketchRunF32 (mapped : List ℤ) : Estimator :=
  runF32 (fl32 BATTERY_CAPACITY_MAH) deltaTime_hoursF32 Estimator.zero
    (mapped.map (fun (m : ℤ) => fl32 (m : ℚ)))

/-! ### Evaluation of the binary32 accounting

The functions below compute the same values as `runF32`
(`runF32Strict_eq`); they make the state of each step a numeral before the
next step is taken, so that long runs can be evaluated by definitional
unfolding. -/

/-- The continuation `k` applied to `n`, once `n` is known to be zero or a
successor. -/
def forceNat {α : Type} (n : ℕ) (k : ℕ → α) : α :=
  match n with
  | 0 => k 0
  | m + 1 => k (m + 1)

/-- The continuation `k` applied to `z`, once the sign and magnitude of `z` are
known. -/
def forceInt {α : Type} (z : ℤ) (k : ℤ → α) : α :=
  match z with
  | Int.ofNat n => forceNat n fun m => k (Int.ofNat m)
  | Int.negSucc n => forceNat n fun m => k (Int.negSucc m)

/-- The continuation `k` applied to `q`, once its numerator and denominator are
known. -/
def forceRat {α : Type} (q : ℚ) (k : ℚ → α) : α :=
  forceInt q.num fun n => forceNat q.den fun d => k ((n : ℚ) / (d : ℚ))

/-- The continuation `k` applied to `s`, once its four fields are known. -/
def forceEstimator {α : Type} (s : Estimator) (k : Estimator → α) : α :=
  forceRat s.accumulated_discharge_mAh fun a =>
    forceRat s.total_discharged_mAh fun d =>
      forceRat s.total_recharged_mAh fun r =>
        forceInt s.battery_cycle_count fun n => k ⟨a, d, r, n⟩

/-- The function `runF32`, with the state evaluated after every step. -/
def runF32Strict (capacity deltaTime_hours : ℚ) : List ℚ → Estimator → Estimator
  | [], s => s
  | c :: cs, s =>
    forceEstimator (loopBodyF32 capacity deltaTime_hours c s)
      (runF32Strict capacity deltaTime_hours cs)

/-! ## Basic facts about the body of the loop -/

theorem toLong_of_nonneg {x : ℚ} (h : 0 ≤ x) : toLong x = ⌊x⌋ := by
  simp [toLong, h]

theorem toLong_zero : toLong 0 = 0 := by
  simp [toLong]

theorem toLong_mono {x y : ℚ} (h : x ≤ y) : toLong x ≤ toLong y := by
  unfold toLong
  split_ifs with hx hy hy
  · exact Int.floor_le_floor h
  · exact absurd (hx.trans h) hy
  · have h1 : ⌈x⌉ ≤ 0 := Int.ceil_le.mpr (by push_cast; linarith)
    have h2 : 0 ≤ ⌊y⌋ := Int.floor_nonneg.mpr hy
    exact h1.trans h2
  · exact Int.ceil_le_ceil h

theorem cycleCounting_acc (capacity : ℚ) (s : Estimator) :
    (cycleCounting capacity s).accumulated_discharge_mAh = s.accumulated_discharge_mAh := by
  unfold cycleCounting; dsimp only; split_ifs <;> rfl

theorem cycleCounting_discharged (capacity : ℚ) (s : Estimator) :
    (cycleCounting capacity s).total_discharged_mAh = s.total_discharged_mAh := by
  unfold cycleCounting; dsimp only; split_ifs <;> rfl

theorem cycleCounting_recharged (capacity : ℚ) (s : Estimator) :
    (cycleCounting capacity s).total_recharged_mAh = s.total_recharged_mAh := by
  unfold cycleCounting; dsimp only; split_ifs <;> rfl

theorem cycleCounting_count (capacity : ℚ) (s : Estimator) :
    (cycleCounting capacity s).battery_cycle_count
      = max s.battery_cycle_count (toLong (s.total_discharged_mAh / capacity)) := by
  unfold cycleCounting
  dsimp only
  split_ifs with h
  · exact (max_eq_right (le_of_lt h)).symm
  · exact (max_eq_left (not_lt.mp h)).symm

theorem cycleCounting_eq_self {capacity : ℚ} {s : Estimator}
    (h : toLong (s.total_discharged_mAh / capacity) ≤ s.battery_cycle_count) :
    cycleCounting capacity s = s := by
  unfold cycleCounting
  dsimp only
  rw [if_neg (not_lt.mpr h)]

theorem loopBody_acc (capacity dt c : ℚ) (s : Estimator) :
    (loopBody capacity dt c s).accumulated_discharge_mAh
      = if c < 0 then s.accumulated_discharge_mAh + |c * dt|
        else if c > 0 then max 0 (s.accumulated_discharge_mAh - |c * dt|)
        else s.accumulated_discharge_mAh := by
  unfold loopBody
  rw [cycleCounting_acc]
  unfold coulombCounting
  dsimp only
  split_ifs with h1 h2 h3
  · rfl
  · exact (max_eq_left (le_of_lt h3)).symm
  · exact (max_eq_right (not_lt.mp h3)).symm
  · rfl

theorem loopBody_discharged (capacity dt c : ℚ) (s : Estimator) :
    (loopBody capacity dt c s).total_discharged_mAh
      = s.total_discharged_mAh + if c < 0 then |c * dt| else 0 := by
  unfold loopBody
  rw [cycleCounting_discharged]
  unfold coulombCounting
  dsimp only
  split_ifs <;> simp

theorem loopBody_recharged (capacity dt c : ℚ) (s : Estimator) :
    (loopBody capacity dt c s).total_recharged_mAh
      = s.total_recharged_mAh + if c > 0 then |c * dt| else 0 := by
  unfold loopBody
  rw [cycleCounting_recharged]
  unfold coulombCounting
  dsimp only
  split_ifs with h1 h2 <;> simp
  exact absurd h2 (not_lt.mpr (le_of_lt h1))

theorem loopBody_count (capacity dt c : ℚ) (s : Estimator) :
    (loopBody capacity dt c s).battery_cycle_count
      = max s.battery_cycle_count
          (toLong ((loopBody capacity dt c s).total_discharged_mAh / capacity)) := by
  have h : (coulombCounting dt c s).battery_cycle_count = s.battery_cycle_count := by
    unfold coulombCounting; dsimp only; split_ifs <;> rfl
  unfold loopBody
  rw [cycleCounting_count, cycleCounting_discharged, h]


/-! ## Facts about sequences of samples -/

theorem amount_nonneg (t : ℚ × ℚ) : 0 ≤ amount t :=
  abs_nonneg _

theorem run_append (capacity : ℚ) (s : Estimator) (l₁ l₂ : List (ℚ × ℚ)) :
    run capacity s (l₁ ++ l₂) = run capacity (run capacity s l₁) l₂ := by
  induction l₁ generalizing s with
  | nil => rfl
  | cons t l ih => exact ih _

/-- A property kept by every pass through the body of the loop is kept by every
sequence of samples. -/
theorem run_invariant (capacity : ℚ) (P : Estimator → Prop)
    (step : ∀ s dt c, P s → P (loopBody capacity dt c s))
    (s : Estimator) (hs : P s) (ticks : List (ℚ × ℚ)) : P (run capacity s ticks) := by
  induction ticks generalizing s with
  | nil => exact hs
  | cons t l ih => exact ih _ (step s t.2 t.1 hs)

theorem loopBody_acc_nonneg (capacity dt c : ℚ) (s : Estimator)
    (hs : 0 ≤ s.accumulated_discharge_mAh) :
    0 ≤ (loopBody capacity dt c s).accumulated_discharge_mAh := by
  rw [loopBody_acc]
  split_ifs
  · exact add_nonneg hs (abs_nonneg _)
  · exact le_max_left _ _
  · exact hs

theorem loopBody_discharged_le (capacity dt c : ℚ) (s : Estimator) :
    s.total_discharged_mAh ≤ (loopBody capacity dt c s).total_discharged_mAh := by
  rw [loopBody_discharged]
  split_ifs
  · exact le_add_of_nonneg_right (abs_nonneg _)
  · simp

theorem loopBody_recharged_le (capacity dt c : ℚ) (s : Estimator) :
    s.total_recharged_mAh ≤ (loopBody capacity dt c s).total_recharged_mAh := by
  rw [loopBody_recharged]
  split_ifs
  · exact le_add_of_nonneg_right (abs_nonneg _)
  · simp

theorem loopBody_count_le (capacity dt c : ℚ) (s : Estimator) :
    s.battery_cycle_count ≤ (loopBody capacity dt c s).battery_cycle_count := by
  rw [loopBody_count]
  exact le_max_left _ _

/-- After any pass through the body the count is at least the truncated quotient
of the lifetime discharge by the capacity. -/
theorem loopBody_count_ge (capacity dt c : ℚ) (s : Estimator) :
    toLong ((loopBody capacity dt c s).total_discharged_mAh / capacity)
      ≤ (loopBody capacity dt c s).battery_cycle_count := by
  rw [loopBody_count]
  exact le_max_right _ _

/-- In every state reached from the zeroed one the count is up to date: the
re-evaluation of section 3 would not change it. -/
theorem run_zero_count_ge (capacity : ℚ) (ticks : List (ℚ × ℚ)) :
    toLong ((run capacity Estimator.zero ticks).total_discharged_mAh / capacity)
      ≤ (run capacity Estimator.zero ticks).battery_cycle_count := by
  refine run_invariant capacity
    (fun s => toLong (s.total_discharged_mAh / capacity) ≤ s.battery_cycle_count)
    (fun s dt c _ => loopBody_count_ge capacity dt c s) Estimator.zero ?_ ticks
  simp [Estimator.zero, toLong_zero]

theorem run_acc_nonneg (capacity : ℚ) (s : Estimator)
    (hs : 0 ≤ s.accumulated_discharge_mAh) (ticks : List (ℚ × ℚ)) :
    0 ≤ (run capacity s ticks).accumulated_discharge_mAh :=
  run_invariant capacity (fun s => 0 ≤ s.accumulated_discharge_mAh)
    (fun s dt c h => loopBody_acc_nonneg capacity dt c s h) s hs ticks

theorem run_discharged_le (capacity : ℚ) (s : Estimator) (ticks : List (ℚ × ℚ)) :
    s.total_discharged_mAh ≤ (run capacity s ticks).total_discharged_mAh := by
  induction ticks generalizing s with
  | nil => exact le_refl _
  | cons t l ih => exact (loopBody_discharged_le capacity t.2 t.1 s).trans (ih _)

theorem run_recharged_le (capacity : ℚ) (s : Estimator) (ticks : List (ℚ × ℚ)) :
    s.total_recharged_mAh ≤ (run capacity s ticks).total_recharged_mAh := by
  induction ticks generalizing s with
  | nil => exact le_refl _
  | cons t l ih => exact (loopBody_recharged_le capacity t.2 t.1 s).trans (ih _)

theorem run_count_le (capacity : ℚ) (s : Estimator) (ticks : List (ℚ × ℚ)) :
    s.battery_cycle_count ≤ (run capacity s ticks).battery_cycle_count := by
  induction ticks generalizing s with
  | nil => exact le_refl _
  | cons t l ih => exact (loopBody_count_le capacity t.2 t.1 s).trans (ih _)

theorem dischargedSum_nil : dischargedSum [] = 0 := rfl

theorem dischargedSum_cons (t : ℚ × ℚ) (l : List (ℚ × ℚ)) :
    dischargedSum (t :: l) = (if t.1 < 0 then amount t else 0) + dischargedSum l := by
  unfold dischargedSum
  by_cases h : t.1 < 0
  · simp [List.filter_cons, h]
  · simp [List.filter_cons, h]

theorem dischargedSum_nonneg (l : List (ℚ × ℚ)) : 0 ≤ dischargedSum l := by
  induction l with
  | nil => simp [dischargedSum_nil]
  | cons t l ih =>
    rw [dischargedSum_cons]
    split_ifs
    · exact add_nonneg (amount_nonneg t) ih
    · simpa using ih

theorem dischargedSum_filter (l : List (ℚ × ℚ)) :
    dischargedSum (l.filter (fun t => decide (t.1 < 0))) = dischargedSum l := by
  unfold dischargedSum
  rw [List.filter_filter]
  simp

theorem dischargedSum_of_discharging {l : List (ℚ × ℚ)} (h : ∀ t ∈ l, t.1 < 0) :
    dischargedSum l = (l.map amount).sum := by
  unfold dischargedSum
  rw [List.filter_eq_self.mpr]
  intro t ht
  simpa using h t ht

/-- The lifetime discharge grows by the amounts of the discharging samples. -/
theorem run_discharged (capacity : ℚ) (s : Estimator) (ticks : List (ℚ × ℚ)) :
    (run capacity s ticks).total_discharged_mAh
      = s.total_discharged_mAh + dischargedSum ticks := by
  induction ticks generalizing s with
  | nil => simp [run, dischargedSum_nil]
  | cons t l ih =>
    rw [run, ih, loopBody_discharged, dischargedSum_cons, amount, add_assoc]

/-- With discharging samples only, the net discharge grows by the same amounts. -/
theorem run_acc_of_discharging (capacity : ℚ) (s : Estimator) (ticks : List (ℚ × ℚ))
    (h : ∀ t ∈ ticks, t.1 < 0) :
    (run capacity s ticks).accumulated_discharge_mAh
      = s.accumulated_discharge_mAh + (ticks.map amount).sum := by
  induction ticks generalizing s with
  | nil => simp [run]
  | cons t l ih =>
    have ht : t.1 < 0 := h t (List.mem_cons_self _ _)
    rw [run, ih _ (fun u hu => h u (List.mem_cons_of_mem _ hu)), loopBody_acc, if_pos ht,
      List.map_cons, List.sum_cons, amount, add_assoc]

/-- For a positive capacity, the count in a state reached from the zeroed one is
the floor of the lifetime discharge divided by the capacity. -/
theorem run_zero_count {capacity : ℚ} (hcap : 0 < capacity) (ticks : List (ℚ × ℚ)) :
    (run capacity Estimator.zero ticks).battery_cycle_count
      = ⌊(run capacity Estimator.zero ticks).total_discharged_mAh / capacity⌋ := by
  have key : (run capacity Estimator.zero ticks).battery_cycle_count
        = toLong ((run capacity Estimator.zero ticks).total_discharged_mAh / capacity)
      ∧ 0 ≤ (run capacity Estimator.zero ticks).total_discharged_mAh := by
    refine run_invariant capacity
      (fun s => s.battery_cycle_count = toLong (s.total_discharged_mAh / capacity)
        ∧ 0 ≤ s.total_discharged_mAh) ?_ Estimator.zero ?_ ticks
    · intro s dt c hs
      have hle := loopBody_discharged_le capacity dt c s
      refine ⟨?_, hs.2.trans hle⟩
      rw [loopBody_count, hs.1]
      exact max_eq_right (toLong_mono (div_le_div_of_nonneg_right hle (le_of_lt hcap)))
    · simp [Estimator.zero, toLong_zero]
  rw [key.1, toLong_of_nonneg (div_nonneg key.2 (le_of_lt hcap))]


/-! ## The properties of the estimator -/

/-- C1. Starting from the zeroed state, for every finite sequence of samples with
arbitrary signed currents and positive sample intervals, the net discharge
`accumulated_discharge_mAh` is nonnegative after every sample (that is, after
every prefix of the sequence), although the clip at zero sits only in the
charging branch. -/
theorem net_discharge_nonneg (capacity : ℚ) (ticks : List (ℚ × ℚ))
    (_hdt : ∀ t ∈ ticks, 0 < t.2) (n : ℕ) :
    0 ≤ (run capacity Estimator.zero (ticks.take n)).accumulated_discharge_mAh :=
  run_acc_nonneg capacity Estimator.zero (le_refl _) (ticks.take n)

/-- C1 at a discharge, a charge and a heavy discharge, one second each, looked at
after the second sample. -/
theorem net_discharge_nonneg_witness :
    (∀ t ∈ [((-500 : ℚ), (1 / 3600 : ℚ)), (5000, 1 / 3600), (-20000, 1 / 3600)], 0 < t.2)
      ∧ 0 ≤ (run BATTERY_CAPACITY_MAH Estimator.zero
          ([((-500 : ℚ), (1 / 3600 : ℚ)), (5000, 1 / 3600), (-20000, 1 / 3600)].take 2)
            ).accumulated_discharge_mAh :=
  ⟨by simp, net_discharge_nonneg BATTERY_CAPACITY_MAH _ (by simp) 2⟩

/-- C2, with the arithmetic taken as exact.  For a positive capacity (such as
`BATTERY_CAPACITY_MAH`), after every sample of every sequence started from the
zeroed state, `total_discharged_mAh` is the sum of `|current_mA * dt|` over the
discharging samples only and `battery_cycle_count` is the floor of
`total_discharged_mAh / capacity`; the count is the one reached by the
discharging samples alone, so interleaved charging samples do not change it. -/
theorem cycle_count_eq_floor (capacity : ℚ) (hcap : 0 < capacity)
    (ticks : List (ℚ × ℚ)) (n : ℕ) :
    (run capacity Estimator.zero (ticks.take n)).total_discharged_mAh
        = dischargedSum (ticks.take n)
      ∧ (run capacity Estimator.zero (ticks.take n)).battery_cycle_count
        = ⌊(run capacity Estimator.zero (ticks.take n)).total_discharged_mAh / capacity⌋
      ∧ (run capacity Estimator.zero (ticks.take n)).battery_cycle_count
        = (run capacity Estimator.zero
            ((ticks.take n).filter (fun t => decide (t.1 < 0)))).battery_cycle_count := by
  have htd : ∀ l : List (ℚ × ℚ),
      (run capacity Estimator.zero l).total_discharged_mAh = dischargedSum l := by
    intro l
    rw [run_discharged]
    simp [Estimator.zero]
  refine ⟨htd _, run_zero_count hcap _, ?_⟩
  rw [run_zero_count hcap, run_zero_count hcap, htd, htd, dischargedSum_filter]

/-- C2 at the capacity of the sketch, for a discharge followed by a charge. -/
theorem cycle_count_eq_floor_witness :
    (0 : ℚ) < BATTERY_CAPACITY_MAH
      ∧ (run BATTERY_CAPACITY_MAH Estimator.zero
          ([((-20000 : ℚ), (1 / 3600 : ℚ)), (5000, 1 / 3600)].take 2)).total_discharged_mAh
        = dischargedSum ([((-20000 : ℚ), (1 / 3600 : ℚ)), (5000, 1 / 3600)].take 2)
      ∧ (run BATTERY_CAPACITY_MAH Estimator.zero
          ([((-20000 : ℚ), (1 / 3600 : ℚ)), (5000, 1 / 3600)].take 2)).battery_cycle_count
        = ⌊(run BATTERY_CAPACITY_MAH Estimator.zero
            ([((-20000 : ℚ), (1 / 3600 : ℚ)), (5000, 1 / 3600)].take 2)).total_discharged_mAh
              / BATTERY_CAPACITY_MAH⌋
      ∧ (run BATTERY_CAPACITY_MAH Estimator.zero
          ([((-20000 : ℚ), (1 / 3600 : ℚ)), (5000, 1 / 3600)].take 2)).battery_cycle_count
        = (run BATTERY_CAPACITY_MAH Estimator.zero
            (([((-20000 : ℚ), (1 / 3600 : ℚ)), (5000, 1 / 3600)].take 2).filter
              (fun t => decide (t.1 < 0)))).battery_cycle_count :=
  ⟨by norm_num [BATTERY_CAPACITY_MAH],
    cycle_count_eq_floor BATTERY_CAPACITY_MAH (by norm_num [BATTERY_CAPACITY_MAH]) _ 2⟩

/-! ### The binary32 accounting on a long light discharge -/

theorem log2Search_spec (i k n : ℕ) (h₁ : 2 ^ k ≤ n) (h₂ : n < 2 ^ (k + 2 ^ i)) :
    2 ^ log2Search i k n ≤ n ∧ n < 2 ^ (log2Search i k n + 1) := by
  induction i generalizing k with
  | zero => exact ⟨h₁, by simpa using h₂⟩
  | succ i ih =>
    unfold log2Search
    split_ifs with h
    · exact ih (k + 2 ^ i) h (by rw [add_assoc, ← two_mul, ← pow_succ']; exact h₂)
    · exact ih k h₁ (not_le.mp h)

/-- For a positive number below `2 ^ 2 ^ 11 = 2 ^ 2048`, `bitLength` is the number
of binary digits. -/
theorem bitLength_spec (n : ℕ) (h₀ : 0 < n) (h : n < 2 ^ 2 ^ 11) :
    2 ^ (bitLength n - 1) ≤ n ∧ n < 2 ^ bitLength n := by
  unfold bitLength
  rw [if_neg (Nat.pos_iff_ne_zero.mp h₀), Nat.add_sub_cancel]
  exact log2Search_spec 11 0 n (by simpa using h₀) (by rw [Nat.zero_add]; exact h)

/-- Some values of the rounding to `float`: exact on small integers, the
familiar `0.1f`, and ties going to the even significand. -/
theorem fl32_examples :
    fl32 250 = 250 ∧ fl32 (-500) = -500 ∧ fl32 (1 / 10) = 13421773 / 134217728
      ∧ fl32 16777217 = 16777216 ∧ fl32 16777219 = 16777220
      ∧ fl32 (1 / 2 ^ 150) = 0 ∧ fl32 (3 / 2 ^ 150) = 2 / 2 ^ 149 := by
  decide!

/-- The sample interval held by the sketch is `0x1.234568p-12`, slightly more
than 1/3600 h. -/
theorem deltaTime_hoursF32_eq : deltaTime_hoursF32 = 2386093 / 8589934592 := by
  decide!

theorem forceNat_eq {α : Type} (n : ℕ) (k : ℕ → α) : forceNat n k = k n := by
  cases n <;> rfl

theorem forceInt_eq {α : Type} (z : ℤ) (k : ℤ → α) : forceInt z k = k z := by
  cases z <;> simp only [forceInt, forceNat_eq]

theorem forceRat_eq {α : Type} (q : ℚ) (k : ℚ → α) : forceRat q k = k q := by
  simp only [forceRat, forceInt_eq, forceNat_eq, Rat.num_div_den]

theorem forceEstimator_eq {α : Type} (s : Estimator) (k : Estimator → α) :
    forceEstimator s k = k s := by
  simp only [forceEstimator, forceRat_eq, forceInt_eq]

theorem runF32Strict_eq (capacity dt : ℚ) (cs : List ℚ) (s : Estimator) :
    runF32Strict capacity dt cs s = runF32 capacity dt s cs := by
  induction cs generalizing s with
  | nil => rfl
  | cons c cs ih =>
    show forceEstimator (loopBodyF32 capacity dt c s) (runF32Strict capacity dt cs)
      = runF32 capacity dt (loopBodyF32 capacity dt c s) cs
    rw [forceEstimator_eq]
    exact ih _

/-- The binary32 accounting of 1800 samples of -500 mA, one second each. -/
theorem runF32Strict_light_discharge :
    runF32Strict 250 (2386093 / 8589934592) (List.replicate 1800 (-500)) Estimator.zero
      = ⟨8191857 / 32768, 8191857 / 32768, 0, 0⟩ := by
  decide!

theorem sketchRunF32_light_discharge :
    sketchRunF32 (List.replicate 1800 (-500 : ℤ)) = ⟨8191857 / 32768, 8191857 / 32768, 0, 0⟩ := by
  have hcap : fl32 BATTERY_CAPACITY_MAH = 250 := by decide!
  have hcur : fl32 ((-500 : ℤ) : ℚ) = -500 := by decide!
  unfold sketchRunF32
  rw [List.map_replicate, hcap, hcur, deltaTime_hoursF32_eq, ← runF32Strict_eq]
  exact runF32Strict_light_discharge

theorem dischargedSum_replicate_discharging (n : ℕ) (c dt : ℚ) (hc : c < 0) :
    dischargedSum (List.replicate n (c, dt)) = n * |c * dt| := by
  rw [dischargedSum_of_discharging, List.map_replicate, List.sum_replicate, amount,
    nsmul_eq_mul]
  intro t ht
  rw [List.eq_of_mem_replicate ht]
  exact hc

/-- C2, the claim fails in the arithmetic of the sketch.  After 1800 processed
samples of -500 mA (the lightest load of the potentiometer, one second each)
the `float` accumulator `total_discharged_mAh` holds 8191857/32768, about
249.995636, and `battery_cycle_count` is 0; the sum of `|current_mA * dt|` over
these samples is 250 with `dt = 1/3600` h, and slightly more than 250 with the
`float` interval of the sketch, so in both readings the floor of the sum
divided by `BATTERY_CAPACITY_MAH` is 1, not 0.  With the arithmetic taken as
exact the same samples give total 250 and count 1. -/
theorem binary32_count_below_floor_of_sum :
    (sketchRunF32 (List.replicate 1800 (-500 : ℤ))).total_discharged_mAh = 8191857 / 32768
      ∧ (sketchRunF32 (List.replicate 1800 (-500 : ℤ))).battery_cycle_count = 0
      ∧ dischargedSum (List.replicate 1800 ((-500 : ℚ), (1 / 3600 : ℚ))) = 250
      ∧ ⌊dischargedSum (List.replicate 1800 ((-500 : ℚ), (1 / 3600 : ℚ)))
          / BATTERY_CAPACITY_MAH⌋ = 1
      ∧ (sketchRunF32 (List.replicate 1800 (-500 : ℤ))).total_discharged_mAh
          < dischargedSum (List.replicate 1800 ((-500 : ℚ), deltaTime_hoursF32))
      ∧ ⌊dischargedSum (List.replicate 1800 ((-500 : ℚ), deltaTime_hoursF32))
          / BATTERY_CAPACITY_MAH⌋ = 1
      ∧ (run BATTERY_CAPACITY_MAH Estimator.zero
          (List.replicate 1800 ((-500 : ℚ), (1 / 3600 : ℚ)))).battery_cycle_count = 1 := by
  have hsum : dischargedSum (List.replicate 1800 ((-500 : ℚ), (1 / 3600 : ℚ))) = 250 := by
    rw [dischargedSum_replicate_discharging _ _ _ (by norm_num)]
    norm_num [abs_of_neg]
  have hsumF : dischargedSum (List.replicate 1800 ((-500 : ℚ), deltaTime_hoursF32))
      = 536870925000 / 2147483648 := by
    rw [dischargedSum_replicate_discharging _ _ _ (by norm_num), deltaTime_hoursF32_eq]
    norm_num [abs_of_neg]
  have hcap : (0 : ℚ) < BATTERY_CAPACITY_MAH := by norm_num [BATTERY_CAPACITY_MAH]
  have hrun : (run BATTERY_CAPACITY_MAH Estimator.zero
      (List.replicate 1800 ((-500 : ℚ), (1 / 3600 : ℚ)))).total_discharged_mAh = 250 := by
    rw [run_discharged, hsum]
    simp [Estimator.zero]
  refine ⟨?_, ?_, hsum, ?_, ?_, ?_, ?_⟩
  · rw [sketchRunF32_light_discharge]
  · rw [sketchRunF32_light_discharge]
  · rw [hsum, Int.floor_eq_iff]
    norm_num [BATTERY_CAPACITY_MAH]
  · rw [sketchRunF32_light_discharge, hsumF]
    norm_num
  · rw [hsumF, Int.floor_eq_iff]
    norm_num [BATTERY_CAPACITY_MAH]
  · rw [run_zero_count hcap, hrun, Int.floor_eq_iff]
    norm_num [BATTERY_CAPACITY_MAH]

/-- C3. In every state reached from the zeroed one by samples, a sample with
`current_mA = 0` leaves `accumulated_discharge_mAh`, `total_discharged_mAh`,
`total_recharged_mAh` and `battery_cycle_count` unchanged, whatever the elapsed
time: the cycle count is re-evaluated and comes out the same. -/
theorem idle_tick_unchanged (capacity : ℚ) (ticks : List (ℚ × ℚ)) (dt : ℚ) :
    loopBody capacity dt 0 (run capacity Estimator.zero ticks)
      = run capacity Estimator.zero ticks := by
  have hc : coulombCounting dt 0 (run capacity Estimator.zero ticks)
      = run capacity Estimator.zero ticks := by
    simp [coulombCounting]
  unfold loopBody
  rw [hc]
  exact cycleCounting_eq_self (run_zero_count_ge capacity ticks)


theorem sum_take_amount_le (ticks : List (ℚ × ℚ)) (n : ℕ) :
    ((ticks.take n).map amount).sum ≤ (ticks.map amount).sum := by
  have h : (ticks.map amount).sum
      = ((ticks.take n).map amount).sum + ((ticks.drop n).map amount).sum := by
    rw [← List.sum_append, ← List.map_append, List.take_append_drop]
  have h0 : 0 ≤ ((ticks.drop n).map amount).sum := by
    apply List.sum_nonneg
    intro x hx
    obtain ⟨t, _, rfl⟩ := List.mem_map.mp hx
    exact amount_nonneg t
  linarith

theorem sum_amount_nonneg (ticks : List (ℚ × ℚ)) : 0 ≤ (ticks.map amount).sum := by
  apply List.sum_nonneg
  intro x hx
  obtain ⟨t, _, rfl⟩ := List.mem_map.mp hx
  exact amount_nonneg t

/-- With discharging samples only and a positive capacity, the count is the floor
of the sum of the amounts divided by the capacity. -/
theorem run_zero_count_of_discharging {capacity : ℚ} (hcap : 0 < capacity)
    (ticks : List (ℚ × ℚ)) (h : ∀ t ∈ ticks, t.1 < 0) :
    (run capacity Estimator.zero ticks).battery_cycle_count
      = ⌊(ticks.map amount).sum / capacity⌋ := by
  rw [run_zero_count hcap, run_discharged, dischargedSum_of_discharging h]
  simp [Estimator.zero]

/-- C4. For every capacity `C > 0` and every sequence of discharging samples
(`current_mA < 0`) from the zeroed state whose amounts `|current_mA * dt|` sum
to exactly `C`: the count, 0 at the start, is 1 after the sequence, so it has
increased by exactly 1; the net discharge equals `C`; and after each prefix the
count is 0 while the running sum is below `C` and 1 once it has reached `C`. -/
theorem full_discharge_one_cycle (capacity : ℚ) (hcap : 0 < capacity)
    (ticks : List (ℚ × ℚ)) (hdis : ∀ t ∈ ticks, t.1 < 0)
    (hsum : (ticks.map amount).sum = capacity) :
    Estimator.zero.battery_cycle_count = 0
      ∧ (run capacity Estimator.zero ticks).battery_cycle_count
          = Estimator.zero.battery_cycle_count + 1
      ∧ (run capacity Estimator.zero ticks).accumulated_discharge_mAh = capacity
      ∧ ∀ n : ℕ, (run capacity Estimator.zero (ticks.take n)).battery_cycle_count
          = if ((ticks.take n).map amount).sum < capacity then 0 else 1 := by
  have hne : capacity ≠ 0 := ne_of_gt hcap
  refine ⟨rfl, ?_, ?_, ?_⟩
  · rw [run_zero_count_of_discharging hcap ticks hdis, hsum, div_self hne]
    simp [Estimator.zero]
  · rw [run_acc_of_discharging capacity _ ticks hdis, hsum]
    simp [Estimator.zero]
  · intro n
    have hdis' : ∀ t ∈ ticks.take n, t.1 < 0 := fun t ht => hdis t (List.mem_of_mem_take ht)
    rw [run_zero_count_of_discharging hcap _ hdis']
    have hle : ((ticks.take n).map amount).sum ≤ capacity :=
      hsum ▸ sum_take_amount_le ticks n
    have h0 : 0 ≤ ((ticks.take n).map amount).sum := sum_amount_nonneg _
    split_ifs with hlt
    · rw [Int.floor_eq_iff]
      constructor
      · simpa using div_nonneg h0 (le_of_lt hcap)
      · simpa using (div_lt_one hcap).mpr hlt
    · have heq : ((ticks.take n).map amount).sum = capacity := le_antisymm hle (not_lt.mp hlt)
      rw [heq, div_self hne]
      simp

/-- C4 at the capacity of the sketch, 250 mAh: 1000 samples of -900 mA lasting
1/3600 h each move 1/4 mAh each; the count is 1 and the net discharge 250 after
the 1000th sample, and the count is 0 after any smaller number of samples. -/
theorem full_discharge_one_cycle_witness :
    (0 : ℚ) < BATTERY_CAPACITY_MAH
      ∧ (∀ t ∈ List.replicate 1000 ((-900 : ℚ), (1 / 3600 : ℚ)), t.1 < 0)
      ∧ ((List.replicate 1000 ((-900 : ℚ), (1 / 3600 : ℚ))).map amount).sum
          = BATTERY_CAPACITY_MAH
      ∧ (run BATTERY_CAPACITY_MAH Estimator.zero
          (List.replicate 1000 ((-900 : ℚ), (1 / 3600 : ℚ)))).battery_cycle_count = 1
      ∧ (run BATTERY_CAPACITY_MAH Estimator.zero
          (List.replicate 1000 ((-900 : ℚ), (1 / 3600 : ℚ)))).accumulated_discharge_mAh = 250
      ∧ ∀ n : ℕ, n < 1000 →
          (run BATTERY_CAPACITY_MAH Estimator.zero
            (List.replicate n ((-900 : ℚ), (1 / 3600 : ℚ)))).battery_cycle_count = 0 := by
  have hcap : (0 : ℚ) < BATTERY_CAPACITY_MAH := by norm_num [BATTERY_CAPACITY_MAH]
  have hdis : ∀ t ∈ List.replicate 1000 ((-900 : ℚ), (1 / 3600 : ℚ)), t.1 < 0 := by
    intro t ht
    rw [List.eq_of_mem_replicate ht]
    norm_num
  have hamt : amount ((-900 : ℚ), (1 / 3600 : ℚ)) = 1 / 4 := by
    norm_num [amount, abs_of_neg]
  have hsum : ((List.replicate 1000 ((-900 : ℚ), (1 / 3600 : ℚ))).map amount).sum
      = BATTERY_CAPACITY_MAH := by
    rw [List.map_replicate, List.sum_replicate, hamt]
    norm_num [BATTERY_CAPACITY_MAH]
  have key := full_discharge_one_cycle BATTERY_CAPACITY_MAH hcap
    (List.replicate 1000 ((-900 : ℚ), (1 / 3600 : ℚ))) hdis hsum
  refine ⟨hcap, hdis, hsum, ?_, ?_, ?_⟩
  · exact key.2.1.trans (by simp [Estimator.zero])
  · exact key.2.2.1
  · intro n hn
    have h := key.2.2.2 n
    rw [List.take_replicate, min_eq_left (le_of_lt hn), List.map_replicate,
      List.sum_replicate, hamt] at h
    rw [h, if_pos]
    have hn' : (n : ℚ) < 1000 := by exact_mod_cast hn
    simp only [nsmul_eq_mul, BATTERY_CAPACITY_MAH]
    linarith

/-- C5. For every state with `accumulated_discharge_mAh >= 0` and every `X` with
`0 <= X <= C`, a discharging sample of amount `X` followed by a charging sample
of amount exactly `X` returns `accumulated_discharge_mAh` to its value before
the discharge, and `total_discharged_mAh` and `total_recharged_mAh` have each
grown by exactly `X`.  (The proof does not need the bound `X <= C`.) -/
theorem discharge_recharge_round_trip (capacity : ℚ) (s : Estimator)
    (hs : 0 ≤ s.accumulated_discharge_mAh) (X : ℚ) (_hX0 : 0 ≤ X) (_hXC : X ≤ capacity)
    (c₁ dt₁ c₂ dt₂ : ℚ) (h₁ : c₁ < 0) (hX₁ : |c₁ * dt₁| = X)
    (h₂ : c₂ > 0) (hX₂ : |c₂ * dt₂| = X) :
    (loopBody capacity dt₂ c₂ (loopBody capacity dt₁ c₁ s)).accumulated_discharge_mAh
        = s.accumulated_discharge_mAh
      ∧ (loopBody capacity dt₂ c₂ (loopBody capacity dt₁ c₁ s)).total_discharged_mAh
        = s.total_discharged_mAh + X
      ∧ (loopBody capacity dt₂ c₂ (loopBody capacity dt₁ c₁ s)).total_recharged_mAh
        = s.total_recharged_mAh + X := by
  have h₂' : ¬ c₂ < 0 := not_lt.mpr (le_of_lt h₂)
  have h₁' : ¬ c₁ > 0 := not_lt.mpr (le_of_lt h₁)
  refine ⟨?_, ?_, ?_⟩
  · rw [loopBody_acc, if_neg h₂', if_pos h₂, loopBody_acc, if_pos h₁, hX₁, hX₂,
      add_sub_cancel_right]
    exact max_eq_right hs
  · rw [loopBody_discharged, if_neg h₂', loopBody_discharged, if_pos h₁, hX₁, add_zero]
  · rw [loopBody_recharged, if_pos h₂, loopBody_recharged, if_neg h₁', hX₂, add_zero]

/-- C5 from the zeroed state with `X = 5/36`: -500 mA for 1/3600 h, then 1000 mA
for 1/7200 h. -/
theorem discharge_recharge_round_trip_witness :
    (0 : ℚ) ≤ Estimator.zero.accumulated_discharge_mAh ∧ (0 : ℚ) ≤ 5 / 36
      ∧ (5 / 36 : ℚ) ≤ BATTERY_CAPACITY_MAH
      ∧ (-500 : ℚ) < 0 ∧ |(-500 : ℚ) * (1 / 3600)| = 5 / 36
      ∧ (1000 : ℚ) > 0 ∧ |(1000 : ℚ) * (1 / 7200)| = 5 / 36
      ∧ (loopBody BATTERY_CAPACITY_MAH (1 / 7200) 1000
            (loopBody BATTERY_CAPACITY_MAH (1 / 3600) (-500)
              Estimator.zero)).accumulated_discharge_mAh
          = Estimator.zero.accumulated_discharge_mAh
      ∧ (loopBody BATTERY_CAPACITY_MAH (1 / 7200) 1000
            (loopBody BATTERY_CAPACITY_MAH (1 / 3600) (-500)
              Estimator.zero)).total_discharged_mAh
          = Estimator.zero.total_discharged_mAh + 5 / 36
      ∧ (loopBody BATTERY_CAPACITY_MAH (1 / 7200) 1000
            (loopBody BATTERY_CAPACITY_MAH (1 / 3600) (-500)
              Estimator.zero)).total_recharged_mAh
          = Estimator.zero.total_recharged_mAh + 5 / 36 :=
  ⟨le_refl _, by norm_num, by norm_num [BATTERY_CAPACITY_MAH], by norm_num,
    by norm_num [abs_of_neg], by norm_num, by norm_num [abs_of_pos],
    discharge_recharge_round_trip BATTERY_CAPACITY_MAH Estimator.zero (le_refl _) (5 / 36)
      (by norm_num) (by norm_num [BATTERY_CAPACITY_MAH]) (-500) (1 / 3600) 1000 (1 / 7200)
      (by norm_num) (by norm_num [abs_of_neg]) (by norm_num) (by norm_num [abs_of_pos])⟩


theorem take_eq_take_append {α : Type} (l : List α) {m n : ℕ} (h : m ≤ n) :
    l.take n = l.take m ++ (l.take n).drop m := by
  have h1 : (l.take n).take m = l.take m := by
    rw [List.take_take, min_eq_left h]
  rw [← h1, List.take_append_drop]

/-- C7. For every state, every current and every positive sample interval, one
sample decreases neither `total_discharged_mAh` nor `total_recharged_mAh`; hence
along every sequence of samples with positive intervals both totals are
non-decreasing: the value after `m` samples is at most the value after `n`
samples whenever `m <= n`, so neither is ever reset. -/
theorem lifetime_totals_nondecreasing (capacity : ℚ) (s : Estimator) (c dt : ℚ)
    (_hdt : 0 < dt) (ticks : List (ℚ × ℚ)) (_hticks : ∀ t ∈ ticks, 0 < t.2)
    (m n : ℕ) (hmn : m ≤ n) :
    s.total_discharged_mAh ≤ (loopBody capacity dt c s).total_discharged_mAh
      ∧ s.total_recharged_mAh ≤ (loopBody capacity dt c s).total_recharged_mAh
      ∧ (run capacity s (ticks.take m)).total_discharged_mAh
          ≤ (run capacity s (ticks.take n)).total_discharged_mAh
      ∧ (run capacity s (ticks.take m)).total_recharged_mAh
          ≤ (run capacity s (ticks.take n)).total_recharged_mAh := by
  refine ⟨loopBody_discharged_le capacity dt c s, loopBody_recharged_le capacity dt c s, ?_, ?_⟩
  · rw [take_eq_take_append ticks hmn, run_append]
    exact run_discharged_le capacity _ _
  · rw [take_eq_take_append ticks hmn, run_append]
    exact run_recharged_le capacity _ _

/-- C7 at a charging sample from the zeroed state and at the prefixes of lengths
1 and 3 of a three-sample sequence. -/
theorem lifetime_totals_nondecreasing_witness :
    (0 : ℚ) < 1 / 3600
      ∧ (∀ t ∈ [((-500 : ℚ), (1 / 3600 : ℚ)), (5000, 1 / 3600), (-20000, 1 / 3600)], 0 < t.2)
      ∧ 1 ≤ 3
      ∧ Estimator.zero.total_discharged_mAh
          ≤ (loopBody BATTERY_CAPACITY_MAH (1 / 3600) 5000 Estimator.zero).total_discharged_mAh
      ∧ Estimator.zero.total_recharged_mAh
          ≤ (loopBody BATTERY_CAPACITY_MAH (1 / 3600) 5000 Estimator.zero).total_recharged_mAh
      ∧ (run BATTERY_CAPACITY_MAH Estimator.zero
            ([((-500 : ℚ), (1 / 3600 : ℚ)), (5000, 1 / 3600), (-20000, 1 / 3600)].take 1)
              ).total_discharged_mAh
          ≤ (run BATTERY_CAPACITY_MAH Estimator.zero
            ([((-500 : ℚ), (1 / 3600 : ℚ)), (5000, 1 / 3600), (-20000, 1 / 3600)].take 3)
              ).total_discharged_mAh
      ∧ (run BATTERY_CAPACITY_MAH Estimator.zero
            ([((-500 : ℚ), (1 / 3600 : ℚ)), (5000, 1 / 3600), (-20000, 1 / 3600)].take 1)
              ).total_recharged_mAh
          ≤ (run BATTERY_CAPACITY_MAH Estimator.zero
            ([((-500 : ℚ), (1 / 3600 : ℚ)), (5000, 1 / 3600), (-20000, 1 / 3600)].take 3)
              ).total_recharged_mAh :=
  ⟨by norm_num, by simp, by decide,
    lifetime_totals_nondecreasing BATTERY_CAPACITY_MAH Estimator.zero 5000 (1 / 3600)
      (by norm_num) _ (by simp) 1 3 (by decide)⟩

/-- C8. For every state and every sample, `battery_cycle_count` after the sample
is at least its value before.  In particular, in a state reached from the zeroed
one, a charging sample that clips `accumulated_discharge_mAh` back to 0 (a full
recharge) leaves `battery_cycle_count` unchanged. -/
theorem cycle_count_never_decreases (capacity : ℚ) (s : Estimator) (c dt : ℚ)
    (ticks : List (ℚ × ℚ)) (c' dt' : ℚ) :
    s.battery_cycle_count ≤ (loopBody capacity dt c s).battery_cycle_count
      ∧ (clips (c', dt') (run capacity Estimator.zero ticks) →
          (loopBody capacity dt' c'
              (run capacity Estimator.zero ticks)).accumulated_discharge_mAh = 0
            ∧ (loopBody capacity dt' c'
                (run capacity Estimator.zero ticks)).battery_cycle_count
              = (run capacity Estimator.zero ticks).battery_cycle_count) := by
  refine ⟨loopBody_count_le capacity dt c s, fun hclip => ?_⟩
  obtain ⟨hpos, hneg⟩ := hclip
  have hpos' : ¬ c' < 0 := not_lt.mpr (le_of_lt hpos)
  refine ⟨?_, ?_⟩
  · rw [loopBody_acc, if_neg hpos', if_pos hpos]
    exact max_eq_left (le_of_lt hneg)
  · rw [loopBody_count, loopBody_discharged, if_neg hpos', add_zero]
    exact max_eq_left (run_zero_count_ge capacity ticks)

/-- C8 at a clipping recharge: after one second at -500 mA, one second at 5000 mA
overfills the battery; the net discharge is clipped to 0 and the count stays. -/
theorem cycle_count_never_decreases_witness :
    clips ((5000 : ℚ), (1 / 3600 : ℚ))
        (run BATTERY_CAPACITY_MAH Estimator.zero [((-500 : ℚ), (1 / 3600 : ℚ))])
      ∧ Estimator.zero.battery_cycle_count
          ≤ (loopBody BATTERY_CAPACITY_MAH (1 / 3600) (-20000)
              Estimator.zero).battery_cycle_count
      ∧ (loopBody BATTERY_CAPACITY_MAH (1 / 3600) 5000
            (run BATTERY_CAPACITY_MAH Estimator.zero
              [((-500 : ℚ), (1 / 3600 : ℚ))])).accumulated_discharge_mAh = 0
      ∧ (loopBody BATTERY_CAPACITY_MAH (1 / 3600) 5000
            (run BATTERY_CAPACITY_MAH Estimator.zero
              [((-500 : ℚ), (1 / 3600 : ℚ))])).battery_cycle_count
          = (run BATTERY_CAPACITY_MAH Estimator.zero
              [((-500 : ℚ), (1 / 3600 : ℚ))]).battery_cycle_count := by
  have hclip : clips ((5000 : ℚ), (1 / 3600 : ℚ))
      (run BATTERY_CAPACITY_MAH Estimator.zero [((-500 : ℚ), (1 / 3600 : ℚ))]) := by
    refine ⟨by norm_num, ?_⟩
    rw [run_acc_of_discharging _ _ _ (by simp)]
    norm_num [Estimator.zero, amount, abs_of_neg, abs_of_pos]
  have key := cycle_count_never_decreases BATTERY_CAPACITY_MAH Estimator.zero (-20000)
    (1 / 3600) [((-500 : ℚ), (1 / 3600 : ℚ))] 5000 (1 / 3600)
  exact ⟨hclip, key.1, key.2 hclip⟩

/-- C9. The accumulator has no upper clip and the computed percentage is not
clamped: some sequence of discharging samples from the zeroed state, whose
amounts sum to more than `BATTERY_CAPACITY_MAH`, ends with
`accumulated_discharge_mAh` strictly above `BATTERY_CAPACITY_MAH` and with
`percentage_remaining` strictly negative.  (The sequence is 46 samples of
-20000 mA at the sample interval of the sketch, 1/3600 h.) -/
theorem over_discharge_percentage_negative :
    ∃ ticks : List (ℚ × ℚ),
      (∀ t ∈ ticks, t.1 < 0)
        ∧ BATTERY_CAPACITY_MAH < (ticks.map amount).sum
        ∧ BATTERY_CAPACITY_MAH
            < (run BATTERY_CAPACITY_MAH Estimator.zero ticks).accumulated_discharge_mAh
        ∧ percentage_remaining BATTERY_CAPACITY_MAH
            (run BATTERY_CAPACITY_MAH Estimator.zero ticks) < 0 := by
  have hdis : ∀ t ∈ List.replicate 46 ((-20000 : ℚ), (1 / 3600 : ℚ)), t.1 < 0 := by
    intro t ht
    rw [List.eq_of_mem_replicate ht]
    norm_num
  have hamt : amount ((-20000 : ℚ), (1 / 3600 : ℚ)) = 50 / 9 := by
    norm_num [amount, abs_of_neg]
  have hsum : ((List.replicate 46 ((-20000 : ℚ), (1 / 3600 : ℚ))).map amount).sum
      = 2300 / 9 := by
    rw [List.map_replicate, List.sum_replicate, hamt]
    norm_num
  have hacc : (run BATTERY_CAPACITY_MAH Estimator.zero
      (List.replicate 46 ((-20000 : ℚ), (1 / 3600 : ℚ)))).accumulated_discharge_mAh
        = 2300 / 9 := by
    rw [run_acc_of_discharging _ _ _ hdis, hsum]
    simp [Estimator.zero]
  refine ⟨List.replicate 46 ((-20000 : ℚ), (1 / 3600 : ℚ)), hdis, ?_, ?_, ?_⟩
  · rw [hsum]; norm_num [BATTERY_CAPACITY_MAH]
  · rw [hacc]; norm_num [BATTERY_CAPACITY_MAH]
  · rw [percentage_remaining, hacc]; norm_num [BATTERY_CAPACITY_MAH]


/-- The accounting bounds are kept by every pass through the body. -/
theorem loopBody_bounds (capacity dt c : ℚ) (s : Estimator)
    (h : s.total_discharged_mAh - s.total_recharged_mAh ≤ s.accumulated_discharge_mAh
      ∧ s.accumulated_discharge_mAh ≤ s.total_discharged_mAh
      ∧ 0 ≤ s.total_discharged_mAh) :
    (loopBody capacity dt c s).total_discharged_mAh
          - (loopBody capacity dt c s).total_recharged_mAh
        ≤ (loopBody capacity dt c s).accumulated_discharge_mAh
      ∧ (loopBody capacity dt c s).accumulated_discharge_mAh
        ≤ (loopBody capacity dt c s).total_discharged_mAh
      ∧ 0 ≤ (loopBody capacity dt c s).total_discharged_mAh := by
  obtain ⟨h1, h2, h3⟩ := h
  have ha : 0 ≤ |c * dt| := abs_nonneg _
  rw [loopBody_acc, loopBody_discharged, loopBody_recharged]
  rcases lt_trichotomy c 0 with hc | hc | hc
  · have hc' : ¬ c > 0 := not_lt.mpr (le_of_lt hc)
    rw [if_pos hc, if_pos hc, if_neg hc']
    refine ⟨by linarith, by linarith, by linarith⟩
  · subst hc
    simp only [lt_irrefl, gt_iff_lt, if_false, add_zero]
    exact ⟨h1, h2, h3⟩
  · have hc' : ¬ c < 0 := not_lt.mpr (le_of_lt hc)
    rw [if_neg hc', if_neg hc', if_pos hc, if_pos hc, add_zero]
    refine ⟨?_, ?_, h3⟩
    · exact le_max_of_le_right (by linarith)
    · exact max_le h3 (by linarith)

/-- While the clip does not fire, the net discharge stays equal to the lifetime
discharge minus the lifetime recharge. -/
theorem run_balance_of_neverClips (capacity : ℚ) (s : Estimator) (ticks : List (ℚ × ℚ))
    (hs : s.accumulated_discharge_mAh = s.total_discharged_mAh - s.total_recharged_mAh)
    (hn : neverClips capacity s ticks) :
    (run capacity s ticks).accumulated_discharge_mAh
      = (run capacity s ticks).total_discharged_mAh
        - (run capacity s ticks).total_recharged_mAh := by
  induction ticks generalizing s with
  | nil => exact hs
  | cons t l ih =>
    obtain ⟨hnc, hrest⟩ := hn
    refine ih _ ?_ hrest
    rw [loopBody_acc, loopBody_discharged, loopBody_recharged]
    rcases lt_trichotomy t.1 0 with hc | hc | hc
    · have hc' : ¬ t.1 > 0 := not_lt.mpr (le_of_lt hc)
      rw [if_pos hc, if_pos hc, if_neg hc', hs]
      ring
    · rw [hc]
      simp only [lt_irrefl, gt_iff_lt, if_false, add_zero]
      exact hs
    · have hc' : ¬ t.1 < 0 := not_lt.mpr (le_of_lt hc)
      have hge : 0 ≤ s.accumulated_discharge_mAh - |t.1 * t.2| :=
        not_lt.mp (fun hlt => hnc ⟨hc, hlt⟩)
      rw [if_neg hc', if_neg hc', if_pos hc, if_pos hc, max_eq_right hge, hs]
      ring

/-- C10. Charge-accounting invariant: in every state reached from the zeroed one
by samples with positive sample intervals,
`total_discharged_mAh - total_recharged_mAh <= accumulated_discharge_mAh
<= total_discharged_mAh`, and the left inequality is an equality as long as the
clip at 0 has fired for no sample of the sequence. -/
theorem charge_accounting_invariant (capacity : ℚ) (ticks : List (ℚ × ℚ))
    (_hdt : ∀ t ∈ ticks, 0 < t.2) :
    (run capacity Estimator.zero ticks).total_discharged_mAh
          - (run capacity Estimator.zero ticks).total_recharged_mAh
        ≤ (run capacity Estimator.zero ticks).accumulated_discharge_mAh
      ∧ (run capacity Estimator.zero ticks).accumulated_discharge_mAh
        ≤ (run capacity Estimator.zero ticks).total_discharged_mAh
      ∧ (neverClips capacity Estimator.zero ticks →
          (run capacity Estimator.zero ticks).total_discharged_mAh
              - (run capacity Estimator.zero ticks).total_recharged_mAh
            = (run capacity Estimator.zero ticks).accumulated_discharge_mAh) := by
  have hb := run_invariant capacity
    (fun s => s.total_discharged_mAh - s.total_recharged_mAh ≤ s.accumulated_discharge_mAh
      ∧ s.accumulated_discharge_mAh ≤ s.total_discharged_mAh
      ∧ 0 ≤ s.total_discharged_mAh)
    (fun s dt c h => loopBody_bounds capacity dt c s h) Estimator.zero
    (by simp [Estimator.zero]) ticks
  refine ⟨hb.1, hb.2.1, fun hn => ?_⟩
  exact (run_balance_of_neverClips capacity Estimator.zero ticks
    (by simp [Estimator.zero]) hn).symm

/-- C10 at a discharge followed by a smaller charge, for which the clip does not
fire and the balance is exact. -/
theorem charge_accounting_invariant_witness :
    (∀ t ∈ [((-20000 : ℚ), (1 / 3600 : ℚ)), (1000, 1 / 3600)], 0 < t.2)
      ∧ neverClips BATTERY_CAPACITY_MAH Estimator.zero
          [((-20000 : ℚ), (1 / 3600 : ℚ)), (1000, 1 / 3600)]
      ∧ (run BATTERY_CAPACITY_MAH Estimator.zero
            [((-20000 : ℚ), (1 / 3600 : ℚ)), (1000, 1 / 3600)]).total_discharged_mAh
          - (run BATTERY_CAPACITY_MAH Estimator.zero
            [((-20000 : ℚ), (1 / 3600 : ℚ)), (1000, 1 / 3600)]).total_recharged_mAh
        ≤ (run BATTERY_CAPACITY_MAH Estimator.zero
            [((-20000 : ℚ), (1 / 3600 : ℚ)), (1000, 1 / 3600)]).accumulated_discharge_mAh
      ∧ (run BATTERY_CAPACITY_MAH Estimator.zero
            [((-20000 : ℚ), (1 / 3600 : ℚ)), (1000, 1 / 3600)]).accumulated_discharge_mAh
        ≤ (run BATTERY_CAPACITY_MAH Estimator.zero
            [((-20000 : ℚ), (1 / 3600 : ℚ)), (1000, 1 / 3600)]).total_discharged_mAh
      ∧ (run BATTERY_CAPACITY_MAH Estimator.zero
            [((-20000 : ℚ), (1 / 3600 : ℚ)), (1000, 1 / 3600)]).total_discharged_mAh
          - (run BATTERY_CAPACITY_MAH Estimator.zero
            [((-20000 : ℚ), (1 / 3600 : ℚ)), (1000, 1 / 3600)]).total_recharged_mAh
        = (run BATTERY_CAPACITY_MAH Estimator.zero
            [((-20000 : ℚ), (1 / 3600 : ℚ)), (1000, 1 / 3600)]).accumulated_discharge_mAh := by
  have hn : neverClips BATTERY_CAPACITY_MAH Estimator.zero
      [((-20000 : ℚ), (1 / 3600 : ℚ)), (1000, 1 / 3600)] := by
    refine ⟨fun h => absurd h.1 (by norm_num), fun h => absurd h.2 ?_, trivial⟩
    rw [loopBody_acc]
    norm_num [Estimator.zero, abs_of_neg, abs_of_pos]
  have key := charge_accounting_invariant BATTERY_CAPACITY_MAH
    [((-20000 : ℚ), (1 / 3600 : ℚ)), (1000, 1 / 3600)] (by simp)
  exact ⟨by simp, hn, key.1, key.2.1, key.2.2 hn⟩


/-- The unsigned difference of line 98 is never negative. -/
theorem elapsedMillis_nonneg (currentMillis previousMillis : ℕ) :
    0 ≤ elapsedMillis currentMillis previousMillis :=
  Int.emod_nonneg _ (by norm_num)

end EVBattery
